import Mathlib

/-!
# Verification of the climate-map raster-to-contour pipeline

Shallow embedding of the core pipeline of `src/ClimateMap.jsx`:
Chaikin corner-cutting smoothing (`chaikinSmooth`), the rasterizer
(`buildRasterFromPoints`), the grid-to-geographic reprojection
(`yToLat` / `xToLon`), the zone classifier (`assignZone`), the
threshold-to-color mapping (`colorForThreshold`) and the contour
pipeline of `ContourLayer` (with the external `d3-contour` generator
abstracted as a parameter).

Coordinates and scalar values are embedded as rationals (`ℚ`): the
source manipulates JS numbers with exact comparisons and arithmetic
that stays well inside the exactly-representable range on every code
path the theorems touch.  The missing-value sentinel `NaN` of the
raster is embedded as `Option ℚ` with `none` for `NaN`.
-/

namespace ClimateMap

/-- A 2-D point `[lat, lon]` (resp. `[x, y]`) as the source's 2-element
arrays. -/
abbrev Pt : Type := ℚ × ℚ

/-- Default point used to embed JS out-of-range indexing (`pts[i]` for
`i` out of range).  Every theorem below only indexes in range, where
`List.getD` ignores the default. -/
def dPt : Pt := (0, 0)

/-- `Q = [0.75*p[0] + 0.25*q[0], 0.75*p[1] + 0.25*q[1]]` from
`chaikinSmooth`'s inner loop. -/
def cutQ (p q : Pt) : Pt :=
  (3/4 * p.1 + 1/4 * q.1, 3/4 * p.2 + 1/4 * q.2)

/-- `R = [0.25*p[0] + 0.75*q[0], 0.25*p[1] + 0.75*q[1]]` from
`chaikinSmooth`'s inner loop. -/
def cutR (p q : Pt) : Pt :=
  (1/4 * p.1 + 3/4 * q.1, 1/4 * p.2 + 3/4 * q.2)

/-- One iteration of the `for (let it = 0; ...)` loop body of
`chaikinSmooth`: build `next` from `pts`.

The JS loop `for (let i = startIndex; i < endIndex - 1; i++)` pushes
`Q, R` for each `i`; it runs for `i = startIndex, ...` as long as
`i < endIndex - 1`, i.e. `endIndex - 1 - startIndex` times (zero times
when that is negative, which truncated `Nat` subtraction also gives).
The trailing `if` re-closes a closed curve by pushing a copy of
`next[0]` (`[next[0][0], next[0][1]]` equals `next[0]` as a pair of
rationals). -/
def chaikinMid (isClosed : Bool) (pts : List Pt) : List Pt :=
  let n := pts.length
  let startIndex := if isClosed then 0 else 1
  let endIndex := if isClosed then n else n - 1
  (List.range' startIndex (endIndex - 1 - startIndex)).flatMap
    (fun i => [cutQ (pts.getD i dPt) (pts.getD (i+1) dPt),
               cutR (pts.getD i dPt) (pts.getD (i+1) dPt)])

/-- The `next` list right before the closed-curve fix-up: the inner
loop's pushes, preceded by `next.push(pts[0])` and followed by
`next.push(pts[n - 1])` when the curve is open. -/
def chaikinNext (isClosed : Bool) (pts : List Pt) : List Pt :=
  (if isClosed then [] else [pts.getD 0 dPt]) ++ chaikinMid isClosed pts ++
    (if isClosed then [] else [pts.getD (pts.length - 1) dPt])

/-- The closed-curve fix-up
`if (isClosed && (next.length === 0 || first ≠ last)) next.push(copy of next[0])`,
with the `isClosed` conjunct already discharged by the caller. -/
def reclose (next : List Pt) : List Pt :=
  if next = [] ∨ next.getD 0 dPt ≠ next.getD (next.length - 1) dPt then
    next ++ [next.getD 0 dPt]
  else
    next

def chaikinIter (isClosed : Bool) (pts : List Pt) : List Pt :=
  if isClosed then reclose (chaikinNext true pts) else chaikinNext false pts

/-- The iteration loop of `chaikinSmooth`, including the early break
`if (pts.length > 12000) break;` which is checked after `pts = next`. -/
def chaikinGo (isClosed : Bool) : Nat → List Pt → List Pt
  | 0, pts => pts
  | it + 1, pts =>
    let next := chaikinIter isClosed pts
    if 12000 < next.length then next else chaikinGo isClosed it next

/-- `chaikinSmooth(latlngs, iterations = 4)` from `ClimateMap.jsx`.
The input is a typed list of points, so the `!Array.isArray(latlngs)`
guard is vacuous.  `isClosed` compares the first and last points
component-wise, exactly as the source. -/
def chaikinSmooth (latlngs : List Pt) (iterations : Nat := 4) : List Pt :=
  if latlngs.length < 3 then latlngs
  else
    let isClosed : Bool :=
      decide (2 < latlngs.length) &&
      decide (latlngs.getD 0 dPt = latlngs.getD (latlngs.length - 1) dPt)
    chaikinGo isClosed iterations latlngs

/-! ### Concrete polylines used as counterexamples and witnesses -/

/-- An open 3-point polyline. -/
def testOpenLine3 : List Pt := [(0, 0), (1, 0), (2, 0)]

/-- An open 4-point polyline. -/
def testOpenLine4 : List Pt := [(0, 0), (1, 0), (2, 0), (3, 0)]

/-- A closed 4-point ring (first point repeated at the end). -/
def testClosedRing : List Pt := [(0, 0), (4, 0), (0, 4), (0, 0)]

/-- An open polyline with 12001 points, already above the 12,000-point
safety ceiling. -/
def bigTestPolyline : List Pt :=
  (List.range 12001).map (fun j : Nat => ((j : ℚ), (0 : ℚ)))

/-- An open polyline with 6003 points; one Chaikin iteration takes it
to 12002 points, above the safety ceiling. -/
def witnessLine6003 : List Pt :=
  (List.range 6003).map (fun j : Nat => ((j : ℚ), (0 : ℚ)))

/-! ## Rasterizer (`buildRasterFromPoints`) -/

/-- A climate sample `{ lat, lon, wi, zone }`; the derived `zone` field
plays no role in the rasterizer or contour pipeline and is omitted. -/
structure Sample where
  lat : ℚ
  lon : ℚ
  wi : ℚ
deriving DecidableEq

/-- The raster record
`{ values, width, height, lats, lons, dLat, dLon }` returned by
`buildRasterFromPoints`.  `values` is row-major of length
`width * height`; the `NaN` missing-value sentinel is embedded as
`none`. -/
structure Raster where
  values : List (Option ℚ)
  width : Nat
  height : Nat
  lats : List ℚ
  lons : List ℚ
  dLat : ℚ
  dLon : ℚ
deriving DecidableEq

/-- `Array.from(new Set(xs)).sort((a,b) => a-b)`: the distinct values
of `xs`, sorted ascending.  `List.dedup` keeps a different occurrence
of each duplicated value than JS `Set` does, but after sorting the two
results are the same list, since both are the unique sorted
arrangement of the same set of distinct values. -/
def sortAxis (l : List ℚ) : List ℚ :=
  List.insertionSort (· ≤ ·) l.dedup

/-- `+(x).toFixed(3)`: round to 3 decimal places.  (`toFixed` rounds
halves away from zero while `round` rounds halves up; the two agree on
the nonnegative axis-spacing differences this is applied to.) -/
def roundTo3 (q : ℚ) : ℚ :=
  ((round (q * 1000) : ℤ) : ℚ) / 1000

/-- Row-major cell index `xi + yi * width` of a sample, with `xi`/`yi`
the exact-match positions of its lon/lat on the axes (the source's
`lonIndex.get(p.lon)` / `latIndex.get(p.lat)` map lookups). -/
def cellIdx (lats lons : List ℚ) (width : Nat) (p : Sample) : Nat :=
  lons.indexOf p.lon + lats.indexOf p.lat * width

/-- The body of the sample-writing loop: `values[xi + yi*width] = p.wi`
guarded by `if (yi == null || xi == null) continue;` (a map lookup
misses exactly when the value is not on the axis). -/
def writeCell (lats lons : List ℚ) (width : Nat) (vs : List (Option ℚ))
    (p : Sample) : List (Option ℚ) :=
  if p.lat ∈ lats ∧ p.lon ∈ lons then
    vs.set (cellIdx lats lons width p) (some p.wi)
  else
    vs

/-- `buildRasterFromPoints(points)` from `ClimateMap.jsx`.  Returns
`none` ("no raster") for an empty input; `width = lons.length` and
`height = lats.length` as in the source. -/
def buildRasterFromPoints (points : List Sample) : Option Raster :=
  if points.isEmpty then none
  else
    let lats := sortAxis (points.map Sample.lat)
    let lons := sortAxis (points.map Sample.lon)
    let values := points.foldl (writeCell lats lons lons.length)
      (List.replicate (lons.length * lats.length) (none : Option ℚ))
    some ⟨values, lons.length, lats.length, lats, lons,
      if 2 ≤ lats.length then roundTo3 (lats.getD 1 0 - lats.getD 0 0) else 1/10,
      if 2 ≤ lons.length then roundTo3 (lons.getD 1 0 - lons.getD 0 0) else 1/10⟩

/-- The `points` prop may also be absent (`undefined`), which the
`!points` guard maps to "no raster" exactly like an empty array. -/
def buildRasterFromPointsOpt : Option (List Sample) → Option Raster
  | none => none
  | some ps => buildRasterFromPoints ps

/-- A concrete 2-sample SampleSet with distinct `(lat, lon)` pairs. -/
def testSamples : List Sample := [⟨35, 139, 100⟩, ⟨36, 139, 50⟩]

/-- A single sample, whose raster is 1×1 and therefore too small to
contour. -/
def oneSample : Sample := ⟨35, 139, 100⟩

/-- The 1×1 raster built from `[oneSample]`. -/
def oneSampleRaster : Raster :=
  ⟨[some 100], 1, 1, [35], [139], 1/10, 1/10⟩

/-! ## Reprojection from grid-index space to geographic space -/

/-- `yToLat` from `ContourLayer`: clamp the grid index to
`[0, height-1]`, take the fractional position `t` along the axis
(`0` if `height == 1`), and interpolate linearly between `lats[0]` and
`lats[height-1]`. -/
def yToLat (height : Nat) (lats : List ℚ) (y : ℚ) : ℚ :=
  let yClamped := max 0 (min ((height : ℚ) - 1) y)
  let t := if height = 1 then 0 else yClamped / ((height : ℚ) - 1)
  lats.getD 0 0 + t * (lats.getD (height - 1) 0 - lats.getD 0 0)

/-- `xToLon` from `ContourLayer`, the longitude analogue of `yToLat`. -/
def xToLon (width : Nat) (lons : List ℚ) (x : ℚ) : ℚ :=
  let xClamped := max 0 (min ((width : ℚ) - 1) x)
  let t := if width = 1 then 0 else xClamped / ((width : ℚ) - 1)
  lons.getD 0 0 + t * (lons.getD (width - 1) 0 - lons.getD 0 0)

/-! ## Zone classifier and colors -/

/-- `assignZone(wi)`: fixed ascending breakpoints `[15, 45, 85, 180, 240]`. -/
def assignZone (wi : ℚ) : String :=
  if wi < 15 then "I"
  else if wi < 45 then "II"
  else if wi < 85 then "III"
  else if wi < 180 then "IV"
  else if wi < 240 then "V"
  else "VI"

/-- The `color` field of the `climateZones` record, keyed by zone name. -/
def zoneColor (zone : String) : String :=
  if zone = "I" then "#2563eb"
  else if zone = "II" then "#059669"
  else if zone = "III" then "#65a30d"
  else if zone = "IV" then "#d97706"
  else if zone = "V" then "#dc2626"
  else "#7c2d12"

/-- `colorForThreshold(t)`: a threshold line is drawn in the color of
the zone immediately above the boundary it represents. -/
def colorForThreshold (t : ℚ) : String :=
  if t ≤ 15 then zoneColor "II"
  else if t ≤ 45 then zoneColor "III"
  else if t ≤ 85 then zoneColor "IV"
  else if t ≤ 180 then zoneColor "V"
  else zoneColor "VI"

/-! ## Contour pipeline (`ContourLayer`) -/

/-- The dynamically-typed nested coordinate structure returned by the
external `d3-contour` generator: a tree whose leaves are numeric
coordinate pairs `[x, y]` and whose inner nodes are arrays of
sub-structures. -/
inductive CoordNode where
  | leaf (x y : ℚ)
  | group (children : List CoordNode)

/-- One GeoJSON-style feature from the generator: a threshold value
and its nested `coordinates` structure. -/
structure ContourFeature where
  value : ℚ
  coordinates : CoordNode

/-- One output polyline: smoothed geographic points tagged with the
threshold it was extracted at. -/
structure ContourPolyline where
  latlngs : List Pt
  value : ℚ
deriving DecidableEq

/-- `Array.isArray(node[0]) && typeof node[0][0] === 'number'`: the
first element of the candidate ring is a numeric pair. -/
def headIsLeaf : List CoordNode → Bool
  | .leaf _ _ :: _ => true
  | _ => false

/-- The recursive `walk` of `flattenRings`: a node of length > 1 whose
first element is a numeric pair is a ring; anything else is descended
into (a bare numeric pair contributes nothing, like the non-array JS
values its children are). -/
def flattenWalk : CoordNode → List (List CoordNode)
  | .leaf _ _ => []
  | .group children =>
    if 1 < children.length ∧ headIsLeaf children then [children]
    else children.attach.flatMap (fun c => flattenWalk c.1)
decreasing_by
  have := List.sizeOf_lt_of_mem c.2
  simp only [CoordNode.group.sizeOf_spec]
  omega

/-- `flattenRings(coords)` from `ContourLayer`. -/
def flattenRings (coords : CoordNode) : List (List CoordNode) :=
  flattenWalk coords

/-- The per-vertex reprojection `([x, y]) => [yToLat(y), xToLon(x)]`
composed with the `Number.isFinite` filter: a numeric pair always maps
to a (finite) rational pair, while a non-pair ring element coerces to
`NaN` under the JS arithmetic of `yToLat`/`xToLon` and is dropped by
the filter — embedded together as a `filterMap`. -/
def nodeToLatLng (height width : Nat) (lats lons : List ℚ) :
    CoordNode → Option Pt
  | .leaf x y => some (yToLat height lats y, xToLon width lons x)
  | .group _ => none

/-- The raster-dependent part of `ContourLayer`'s `useMemo`: bail out
to an empty list if the raster is smaller than 2×2, run the external
generator `gen` (the `d3-contour` `contours()` call, abstracted as a
parameter), flatten each feature's coordinates into rings, reproject,
filter, smooth.  Order of the output matches the source's nested
loops. -/
def contourFromRaster (gen : Raster → List ℚ → List ContourFeature)
    (thresholds : List ℚ) (raster : Raster) : List ContourPolyline :=
  if raster.width < 2 ∨ raster.height < 2 then []
  else
    (gen raster thresholds).flatMap (fun c =>
      (flattenRings c.coordinates).filterMap (fun ring =>
        if ring.length < 2 then none
        else
          let latlngs := ring.filterMap
            (nodeToLatLng raster.height raster.width raster.lats raster.lons)
          if 2 ≤ latlngs.length then
            some ⟨chaikinSmooth latlngs 4, c.value⟩
          else none))

/-- The whole contour pipeline of `ContourLayer`'s `useMemo`: build
the raster from the points, bail out to an empty list if it is absent,
and contour it. -/
def contourPolylines (gen : Raster → List ℚ → List ContourFeature)
    (points : Option (List Sample)) (thresholds : List ℚ) :
    List ContourPolyline :=
  match buildRasterFromPointsOpt points with
  | none => []
  | some raster => contourFromRaster gen thresholds raster

/-- A concrete stand-in contour generator that always reports one
diagonal ring, used to show the degenerate guards ignore whatever the
generator would produce. -/
def genOne : Raster → List ℚ → List ContourFeature :=
  fun _ _ => [⟨45, .group [.leaf 0 0, .leaf 1 1]⟩]

/-- The axis-aligned rectangle `[lo1, hi1] × [lo2, hi2]`, the
bounding-box predicate of the claims. -/
def inRect (lo1 hi1 lo2 hi2 : ℚ) (p : Pt) : Prop :=
  lo1 ≤ p.1 ∧ p.1 ≤ hi1 ∧ lo2 ≤ p.2 ∧ p.2 ≤ hi2

/-- A concrete 2×2 SampleSet. -/
def gridSamples : List Sample :=
  [⟨35, 139, 10⟩, ⟨35, 140, 20⟩, ⟨36, 139, 30⟩, ⟨36, 140, 40⟩]

/-- The raster built from `gridSamples`. -/
def gridRaster : Raster :=
  ⟨[some 10, some 20, some 30, some 40], 2, 2, [35, 36], [139, 140],
    roundTo3 (36 - 35), roundTo3 (140 - 139)⟩

/-- A stand-in contour generator returning one diagonal open ring per
threshold, partly outside the grid (the leaf at `(5, -3)`), to exercise
the clamping. -/
def genDiag : Raster → List ℚ → List ContourFeature :=
  fun _ ts => ts.map (fun t => ⟨t, .group [.leaf 0 0, .leaf 5 (-3)]⟩)

/-! ## Basic facts about one Chaikin iteration -/

/-- Point count after one open-curve iteration: the source cuts the
edges `(pts[i], pts[i+1])` for `i = 1, …, n-3` only and re-appends the
two endpoints, giving `2*(n-3) + 2` points. -/
theorem chaikinIter_false_length (pts : List Pt) :
    (chaikinIter false pts).length = 2 * (pts.length - 3) + 2 := by
  simp only [chaikinIter, chaikinNext, chaikinMid]
  simp [List.length_flatMap, Function.comp_def, List.map_const', List.sum_replicate,
    smul_eq_mul]
  omega

/-- An open-curve iteration keeps the first input point first. -/
theorem chaikinIter_false_head (pts : List Pt) :
    (chaikinIter false pts).getD 0 dPt = pts.getD 0 dPt := by
  simp only [chaikinIter, chaikinNext]
  simp

/-- An open-curve iteration keeps the last input point last. -/
theorem chaikinIter_false_last (pts : List Pt) :
    (chaikinIter false pts).getD ((chaikinIter false pts).length - 1) dPt
      = pts.getD (pts.length - 1) dPt := by
  simp only [chaikinIter, chaikinNext]
  simp [List.getD_eq_getElem?_getD, List.getElem?_append_right]

/-! ## The iteration loop -/

/-- Zero loop iterations return the input unchanged. -/
theorem chaikinGo_zero (c : Bool) (pts : List Pt) : chaikinGo c 0 pts = pts := rfl

/-- One loop iteration is one `chaikinIter`, whether or not the safety
break fires afterwards. -/
theorem chaikinGo_one (c : Bool) (pts : List Pt) :
    chaikinGo c 1 pts = chaikinIter c pts := by
  simp [chaikinGo]

/-- Zero requested iterations leave the input unchanged (also when the
input has fewer than 3 points). -/
theorem chaikinSmooth_zero (pts : List Pt) : chaikinSmooth pts 0 = pts := by
  rw [chaikinSmooth]
  split <;> rfl

/-- On an input of length ≥ 3 whose endpoints differ, `chaikinSmooth`
runs the loop with `isClosed = false`. -/
theorem chaikinSmooth_open (pts : List Pt) (k : Nat) (h3 : 3 ≤ pts.length)
    (hopen : pts.getD 0 dPt ≠ pts.getD (pts.length - 1) dPt) :
    chaikinSmooth pts k = chaikinGo false k pts := by
  have hb : (decide (2 < pts.length) &&
      decide (pts.getD 0 dPt = pts.getD (pts.length - 1) dPt)) = false := by
    have h := hopen
    rw [List.getD_eq_getElem?_getD, List.getD_eq_getElem?_getD] at h
    simp [h]
  rw [chaikinSmooth, if_neg (by omega)]
  show chaikinGo _ k pts = _
  rw [hb]

/-- On an input of length ≥ 3 whose endpoints coincide, `chaikinSmooth`
runs the loop with `isClosed = true`. -/
theorem chaikinSmooth_closed (pts : List Pt) (k : Nat) (h3 : 3 ≤ pts.length)
    (hclosed : pts.getD 0 dPt = pts.getD (pts.length - 1) dPt) :
    chaikinSmooth pts k = chaikinGo true k pts := by
  have h2 : 2 < pts.length := by omega
  have hb : (decide (2 < pts.length) &&
      decide (pts.getD 0 dPt = pts.getD (pts.length - 1) dPt)) = true := by
    have h := hclosed
    rw [List.getD_eq_getElem?_getD, List.getD_eq_getElem?_getD] at h
    simp [h, h2]
  rw [chaikinSmooth, if_neg (by omega)]
  show chaikinGo _ k pts = _
  rw [hb]

/-- The closed-curve fix-up always yields a list whose first and last
entries coincide. -/
theorem reclose_getD_eq (l : List Pt) :
    (reclose l).getD 0 dPt = (reclose l).getD ((reclose l).length - 1) dPt := by
  unfold reclose
  split
  case isTrue h =>
    cases l with
    | nil => simp
    | cons a t =>
      simp [List.getD_eq_getElem?_getD, List.getElem?_append_right,
        List.getElem?_concat_length]
  case isFalse h =>
    push_neg at h
    exact h.2

/-- A closed-curve iteration yields a closed list. -/
theorem chaikinIter_true_closed (pts : List Pt) :
    (chaikinIter true pts).getD 0 dPt
      = (chaikinIter true pts).getD ((chaikinIter true pts).length - 1) dPt := by
  rw [chaikinIter, if_pos rfl]
  exact reclose_getD_eq _

/-- At least one closed-curve loop iteration yields a closed list,
whether or not the safety break fires. -/
theorem chaikinGo_true_closed :
    ∀ k : Nat, 1 ≤ k → ∀ pts : List Pt,
      (chaikinGo true k pts).getD 0 dPt
        = (chaikinGo true k pts).getD ((chaikinGo true k pts).length - 1) dPt := by
  intro k
  induction k with
  | zero => intro hk; omega
  | succ j ih =>
    intro _ pts
    by_cases h : 12000 < (chaikinIter true pts).length
    · simp only [chaikinGo, if_pos h]
      exact chaikinIter_true_closed pts
    · simp only [chaikinGo, if_neg h]
      rcases Nat.eq_zero_or_pos j with h0 | hj
      · subst h0
        rw [chaikinGo_zero]
        exact chaikinIter_true_closed pts
      · exact ih hj _

/-- The loop never grows the list beyond the point where the break has
fired: once the output of `k ≥ 1` iterations exceeds 12,000 points,
any larger iteration count gives the same output. -/
theorem chaikinGo_stable (c : Bool) :
    ∀ k, 1 ≤ k → ∀ m, k ≤ m → ∀ pts : List Pt,
      12000 < (chaikinGo c k pts).length → chaikinGo c m pts = chaikinGo c k pts := by
  intro k
  induction k with
  | zero => intro hk; omega
  | succ j ih =>
    intro _ m hm pts hbig
    obtain ⟨i, rfl⟩ : ∃ i, m = i + 1 := ⟨m - 1, by omega⟩
    by_cases h : 12000 < (chaikinIter c pts).length
    · simp only [chaikinGo, if_pos h]
    · simp only [chaikinGo, if_neg h] at hbig ⊢
      rcases Nat.eq_zero_or_pos j with h0 | hj
      · subst h0
        rw [chaikinGo_zero] at hbig
        exact absurd hbig h
      · exact ih hj i (by omega) _ hbig

/-- `chaikinSmooth` on an input of length ≥ 3 computes the loop with
the `isClosed` flag spelled out. -/
theorem chaikinSmooth_go (pts : List Pt) (k : Nat) (h3 : ¬ pts.length < 3) :
    chaikinSmooth pts k =
      chaikinGo (decide (2 < pts.length) &&
        decide (pts.getD 0 dPt = pts.getD (pts.length - 1) dPt)) k pts := by
  rw [chaikinSmooth, if_neg h3]

/-! ## Claim theorems about the smoother -/

/-- **C1, counterexample.**  The claim says one iteration on an open
polyline with `N ≥ 3` points returns `2*(N-2) + 2` points.  The open
3-point polyline `[(0,0), (1,0), (2,0)]` refutes it: the source cuts
only the edges strictly between interior points, so one iteration
returns the 2 endpoints alone, not `2*(3-2)+2 = 4` points. -/
theorem C1_counterexample :
    (testOpenLine3.getD 0 dPt ≠ testOpenLine3.getD (testOpenLine3.length - 1) dPt ∧
      testOpenLine3.length = 3) ∧
    (chaikinSmooth testOpenLine3 1).length ≠ 2 * (testOpenLine3.length - 2) + 2 := by
  decide

/-- **C1, amended.**  For every open polyline (first point ≠ last
point) with `N ≥ 3` points, one iteration of `chaikinSmooth` returns a
sequence of exactly `2*(N-3) + 2` points, with the first and last
input points preserved unchanged as the endpoints of the output. -/
theorem C1_open_iteration (pts : List Pt) (h3 : 3 ≤ pts.length)
    (hopen : pts.getD 0 dPt ≠ pts.getD (pts.length - 1) dPt) :
    (chaikinSmooth pts 1).length = 2 * (pts.length - 3) + 2 ∧
    (chaikinSmooth pts 1).getD 0 dPt = pts.getD 0 dPt ∧
    (chaikinSmooth pts 1).getD ((chaikinSmooth pts 1).length - 1) dPt
      = pts.getD (pts.length - 1) dPt := by
  have hsm : chaikinSmooth pts 1 = chaikinIter false pts := by
    rw [chaikinSmooth_open pts 1 h3 hopen, chaikinGo_one]
  rw [hsm]
  exact ⟨chaikinIter_false_length pts, chaikinIter_false_head pts,
    chaikinIter_false_last pts⟩

/-- Witness for `C1_open_iteration` at the concrete open 4-point
polyline. -/
theorem C1_open_iteration_witness :
    (chaikinSmooth testOpenLine4 1).length = 2 * (testOpenLine4.length - 3) + 2 ∧
    (chaikinSmooth testOpenLine4 1).getD 0 dPt = testOpenLine4.getD 0 dPt ∧
    (chaikinSmooth testOpenLine4 1).getD ((chaikinSmooth testOpenLine4 1).length - 1) dPt
      = testOpenLine4.getD (testOpenLine4.length - 1) dPt :=
  C1_open_iteration testOpenLine4 (by decide) (by decide)

/-- **C2.**  For every closed input ring (first point equals last point
exactly) with at least 3 points and every iteration count ≥ 1, the
output of `chaikinSmooth` is also closed: its first and last points are
equal. -/
theorem C2_closed_invariant (pts : List Pt) (k : Nat) (h3 : 3 ≤ pts.length)
    (hk : 1 ≤ k)
    (hclosed : pts.getD 0 dPt = pts.getD (pts.length - 1) dPt) :
    (chaikinSmooth pts k).getD 0 dPt
      = (chaikinSmooth pts k).getD ((chaikinSmooth pts k).length - 1) dPt := by
  rw [chaikinSmooth_closed pts k h3 hclosed]
  exact chaikinGo_true_closed k hk pts

/-- Witness for `C2_closed_invariant` at a concrete closed 4-point
ring with one iteration. -/
theorem C2_closed_invariant_witness :
    (chaikinSmooth testClosedRing 1).getD 0 dPt
      = (chaikinSmooth testClosedRing 1).getD
          ((chaikinSmooth testClosedRing 1).length - 1) dPt :=
  C2_closed_invariant testClosedRing 1 (by decide) (by decide) (by decide)

/-- **C9.**  For every open polyline of exactly 3 points (first ≠ last)
and every iteration count ≥ 1, `chaikinSmooth` returns exactly the two
endpoints: the middle point is discarded, no corner-cut points are
produced, and further iterations leave the 2-point result unchanged. -/
theorem C9_three_point_open (p0 p1 p2 : Pt) (k : Nat) (hk : 1 ≤ k)
    (hopen : p0 ≠ p2) :
    chaikinSmooth [p0, p1, p2] k = [p0, p2] := by
  rw [chaikinSmooth_open _ k (by simp) (by simpa using hopen)]
  obtain ⟨j, rfl⟩ : ∃ j, k = j + 1 := ⟨k - 1, by omega⟩
  have h1 : chaikinIter false [p0, p1, p2] = [p0, p2] := rfl
  have h2 : ∀ j, chaikinGo false j [p0, p2] = [p0, p2] := by
    intro j
    induction j with
    | zero => rfl
    | succ i ih =>
      have hi : chaikinIter false [p0, p2] = [p0, p2] := rfl
      simp only [chaikinGo, hi, ih]
      norm_num
  simp only [chaikinGo, h1]
  norm_num
  exact h2 j

/-- Witness for `C9_three_point_open` at a concrete open 3-point
polyline. -/
theorem C9_three_point_open_witness :
    chaikinSmooth [((0 : ℚ), (0 : ℚ)), (1, 1), (2, 0)] 1
      = [((0 : ℚ), (0 : ℚ)), (2, 0)] :=
  C9_three_point_open (0, 0) (1, 1) (2, 0) 1 (by norm_num) (by decide)

/-- Helper: indexing the straight-line test polylines. -/
theorem rangeLine_getD (n i : Nat) (h : i < n) :
    ((List.range n).map (fun j : Nat => ((j : ℚ), (0 : ℚ)))).getD i dPt = ((i : ℚ), 0) := by
  rw [List.getD_eq_getElem?_getD, List.getElem?_map, List.getElem?_range h]
  rfl

/-- **C8, counterexample.**  The claim quantifies over *all* `k ≤ m`,
including `k = 0`: an input polyline that already has more than 12,000
points exceeds the ceiling after 0 iterations, yet the source performs
one more iteration (the break is only checked after an iteration), so
running `m = 1` iterations differs from running `k = 0`. -/
theorem C8_counterexample :
    (0 : Nat) ≤ 1 ∧ 12000 < (chaikinSmooth bigTestPolyline 0).length ∧
    chaikinSmooth bigTestPolyline 1 ≠ chaikinSmooth bigTestPolyline 0 := by
  have h0 : chaikinSmooth bigTestPolyline 0 = bigTestPolyline :=
    chaikinSmooth_zero _
  have hlen : bigTestPolyline.length = 12001 := by
    rw [bigTestPolyline, List.length_map, List.length_range]
  have hopen : bigTestPolyline.getD 0 dPt
      ≠ bigTestPolyline.getD (bigTestPolyline.length - 1) dPt := by
    rw [hlen]
    show bigTestPolyline.getD 0 dPt ≠ bigTestPolyline.getD 12000 dPt
    rw [bigTestPolyline, rangeLine_getD 12001 0 (by norm_num),
      rangeLine_getD 12001 12000 (by norm_num)]
    intro hcontra
    have h := congrArg Prod.fst hcontra
    norm_num at h
  have h1 : (chaikinSmooth bigTestPolyline 1).length = 2 * (12001 - 3) + 2 := by
    rw [chaikinSmooth_open _ 1 (by omega) hopen, chaikinGo_one,
      chaikinIter_false_length, hlen]
  refine ⟨by norm_num, by rw [h0, hlen]; norm_num, fun he => ?_⟩
  have h2 := congrArg List.length he
  rw [h1, h0, hlen] at h2
  norm_num at h2

/-- **C8, amended.**  For every input polyline and all iteration counts
`1 ≤ k ≤ m`: if after `k` iterations the point count exceeds 12,000,
then running `m` iterations yields the same output as running `k`
iterations (the smoother performs at most the requested number of
iterations and stops iterating further once the count exceeds the
12,000-point safety ceiling). -/
theorem C8_safety_ceiling (pts : List Pt) (k m : Nat) (hk : 1 ≤ k) (hkm : k ≤ m)
    (hbig : 12000 < (chaikinSmooth pts k).length) :
    chaikinSmooth pts m = chaikinSmooth pts k := by
  by_cases h3 : pts.length < 3
  · rw [chaikinSmooth, if_pos h3, chaikinSmooth, if_pos h3]
  · rw [chaikinSmooth_go pts k h3] at hbig
    rw [chaikinSmooth_go pts m h3, chaikinSmooth_go pts k h3]
    exact chaikinGo_stable _ k hk m hkm pts hbig

/-- Witness for `C8_safety_ceiling`: one iteration on a 6003-point
open polyline gives 12002 points, so a second iteration changes
nothing. -/
theorem C8_safety_ceiling_witness :
    chaikinSmooth witnessLine6003 2 = chaikinSmooth witnessLine6003 1 := by
  have hlen : witnessLine6003.length = 6003 := by
    rw [witnessLine6003, List.length_map, List.length_range]
  have hopen : witnessLine6003.getD 0 dPt
      ≠ witnessLine6003.getD (witnessLine6003.length - 1) dPt := by
    rw [hlen]
    show witnessLine6003.getD 0 dPt ≠ witnessLine6003.getD 6002 dPt
    rw [witnessLine6003, rangeLine_getD 6003 0 (by norm_num),
      rangeLine_getD 6003 6002 (by norm_num)]
    intro hcontra
    have h := congrArg Prod.fst hcontra
    norm_num at h
  have h1 : (chaikinSmooth witnessLine6003 1).length = 2 * (6003 - 3) + 2 := by
    rw [chaikinSmooth_open _ 1 (by omega) hopen, chaikinGo_one,
      chaikinIter_false_length, hlen]
  exact C8_safety_ceiling witnessLine6003 1 2 (by norm_num) (by norm_num)
    (by rw [h1]; norm_num)

/-! ## Reprojection endpoints (C4) -/

/-- Grid index 0 reprojects exactly onto the first axis value. -/
theorem yToLat_zero (height : Nat) (lats : List ℚ) (hh : 2 ≤ height) :
    yToLat height lats 0 = lats.getD 0 0 := by
  have h2 : (2 : ℚ) ≤ (height : ℚ) := by exact_mod_cast hh
  have hne : height ≠ 1 := by omega
  simp only [yToLat, if_neg hne]
  rw [min_eq_right (by linarith), max_self]
  simp

/-- Grid index `height - 1` reprojects exactly onto the last axis
value. -/
theorem yToLat_last (height : Nat) (lats : List ℚ) (hh : 2 ≤ height) :
    yToLat height lats ((height : ℚ) - 1) = lats.getD (height - 1) 0 := by
  have h2 : (2 : ℚ) ≤ (height : ℚ) := by exact_mod_cast hh
  have hne : height ≠ 1 := by omega
  have hden : (height : ℚ) - 1 ≠ 0 := by linarith
  simp only [yToLat, if_neg hne]
  rw [min_self, max_eq_right (by linarith), div_self hden]
  ring

/-- Longitude analogue of `yToLat_zero`. -/
theorem xToLon_zero (width : Nat) (lons : List ℚ) (hw : 2 ≤ width) :
    xToLon width lons 0 = lons.getD 0 0 := by
  have h2 : (2 : ℚ) ≤ (width : ℚ) := by exact_mod_cast hw
  have hne : width ≠ 1 := by omega
  simp only [xToLon, if_neg hne]
  rw [min_eq_right (by linarith), max_self]
  simp

/-- Longitude analogue of `yToLat_last`. -/
theorem xToLon_last (width : Nat) (lons : List ℚ) (hw : 2 ≤ width) :
    xToLon width lons ((width : ℚ) - 1) = lons.getD (width - 1) 0 := by
  have h2 : (2 : ℚ) ≤ (width : ℚ) := by exact_mod_cast hw
  have hne : width ≠ 1 := by omega
  have hden : (width : ℚ) - 1 ≠ 0 := by linarith
  simp only [xToLon, if_neg hne]
  rw [min_self, max_eq_right (by linarith), div_self hden]
  ring

/-- **C4.**  For every raster with `height ≥ 2` the reprojection of
grid index `y = 0` is exactly `lats[0]` and of `y = height - 1` exactly
`lats[height-1]`; analogously for longitude with `width ≥ 2`.  (In
particular, for `lats` running from 24.0 to 50.0, `y = 0` reprojects to
24.0 and `y = height-1` to 50.0 — see the witness.) -/
theorem C4_reprojection_endpoints (height width : Nat) (lats lons : List ℚ)
    (hh : 2 ≤ height) (hw : 2 ≤ width) :
    yToLat height lats 0 = lats.getD 0 0 ∧
    yToLat height lats ((height : ℚ) - 1) = lats.getD (height - 1) 0 ∧
    xToLon width lons 0 = lons.getD 0 0 ∧
    xToLon width lons ((width : ℚ) - 1) = lons.getD (width - 1) 0 :=
  ⟨yToLat_zero height lats hh, yToLat_last height lats hh,
    xToLon_zero width lons hw, xToLon_last width lons hw⟩

/-- Witness for `C4_reprojection_endpoints` on the axes `[24, 50]` and
`[123, 156]`: `y = 0 ↦ 24`, `y = height-1 ↦ 50`, and the longitude
analogues. -/
theorem C4_reprojection_endpoints_witness :
    yToLat 2 [(24 : ℚ), 50] 0 = ([(24 : ℚ), 50].getD 0 0) ∧
    yToLat 2 [(24 : ℚ), 50] ((2 : ℚ) - 1) = ([(24 : ℚ), 50].getD (2 - 1) 0) ∧
    xToLon 2 [(123 : ℚ), 156] 0 = ([(123 : ℚ), 156].getD 0 0) ∧
    xToLon 2 [(123 : ℚ), 156] ((2 : ℚ) - 1) = ([(123 : ℚ), 156].getD (2 - 1) 0) :=
  C4_reprojection_endpoints 2 2 [(24 : ℚ), 50] [(123 : ℚ), 156]
    (by norm_num) (by norm_num)

/-! ## Zone classifier and threshold colors (C5, C6) -/

/-- **C5.**  The zone classifier is a pure function of the value with
breakpoints `[15, 45, 85, 180, 240]`, each boundary value belonging to
the upper zone: `v < 15 ↦ I`, `15 ↦ II`, `44.999 ↦ II`, `45 ↦ III`,
`85 ↦ IV`, `180 ↦ V`, `239 ↦ V`, `240 ↦ VI`, and every `v ≥ 240 ↦ VI`. -/
theorem C5_zone_breakpoints :
    (∀ v : ℚ, v < 15 → assignZone v = "I") ∧
    assignZone 15 = "II" ∧
    assignZone (44999/1000) = "II" ∧
    assignZone 45 = "III" ∧
    assignZone 85 = "IV" ∧
    assignZone 180 = "V" ∧
    assignZone 239 = "V" ∧
    assignZone 240 = "VI" ∧
    (∀ v : ℚ, 240 ≤ v → assignZone v = "VI") := by
  refine ⟨fun v hv => ?_, by norm_num [assignZone], by norm_num [assignZone],
    by norm_num [assignZone], by norm_num [assignZone], by norm_num [assignZone],
    by norm_num [assignZone], by norm_num [assignZone], fun v hv => ?_⟩
  · rw [assignZone, if_pos hv]
  · rw [assignZone, if_neg (by linarith), if_neg (by linarith),
      if_neg (by linarith), if_neg (by linarith), if_neg (by linarith)]

/-- Witness for `C5_zone_breakpoints`: its two conditional components
evaluated at concrete values. -/
theorem C5_zone_breakpoints_witness :
    assignZone 14 = "I" ∧ assignZone 300 = "VI" :=
  ⟨C5_zone_breakpoints.1 14 (by norm_num),
    C5_zone_breakpoints.2.2.2.2.2.2.2.2 300 (by norm_num)⟩

/-- **C6.**  The threshold-to-color function assigns each threshold
boundary value the color of the zone immediately above that boundary:
`15 ↦` zone II's color, `45 ↦` zone III's color, `85 ↦` zone IV's,
`180 ↦` zone V's, `240 ↦` zone VI's, and `240.1 ↦` zone VI's color. -/
theorem C6_threshold_colors :
    colorForThreshold 15 = zoneColor "II" ∧
    colorForThreshold 45 = zoneColor "III" ∧
    colorForThreshold 85 = zoneColor "IV" ∧
    colorForThreshold 180 = zoneColor "V" ∧
    colorForThreshold 240 = zoneColor "VI" ∧
    colorForThreshold (2401/10) = zoneColor "VI" := by
  norm_num [colorForThreshold, zoneColor]

/-! ## Rasterizer facts (C3) -/

/-- `sortAxis l` is a permutation of the distinct values of `l`. -/
theorem sortAxis_perm (l : List ℚ) : List.Perm (sortAxis l) l.dedup :=
  List.perm_insertionSort _ _

/-- `sortAxis` has one entry per distinct value. -/
theorem sortAxis_length (l : List ℚ) : (sortAxis l).length = l.dedup.length :=
  (sortAxis_perm l).length_eq

/-- Membership in `sortAxis`. -/
theorem mem_sortAxis {a : ℚ} {l : List ℚ} : a ∈ sortAxis l ↔ a ∈ l := by
  rw [(sortAxis_perm l).mem_iff, List.mem_dedup]

/-- `sortAxis` has no duplicates. -/
theorem sortAxis_nodup (l : List ℚ) : (sortAxis l).Nodup :=
  ((sortAxis_perm l).nodup_iff).mpr l.nodup_dedup

/-- `sortAxis` is sorted ascending. -/
theorem sortAxis_sorted (l : List ℚ) : (sortAxis l).Sorted (· ≤ ·) :=
  List.sorted_insertionSort _ _

/-- A sample whose axis values occur on the axes gets an in-range cell
index. -/
theorem cellIdx_lt (lats lons : List ℚ) (p : Sample)
    (h1 : p.lat ∈ lats) (h2 : p.lon ∈ lons) :
    cellIdx lats lons lons.length p < lons.length * lats.length := by
  have hx : lons.indexOf p.lon < lons.length := List.indexOf_lt_length.2 h2
  have hy : lats.indexOf p.lat < lats.length := List.indexOf_lt_length.2 h1
  unfold cellIdx
  calc lons.indexOf p.lon + lats.indexOf p.lat * lons.length
      < (lats.indexOf p.lat + 1) * lons.length := by
        rw [Nat.add_mul, Nat.one_mul]; omega
    _ ≤ lats.length * lons.length := Nat.mul_le_mul_right _ (by omega)
    _ = lons.length * lats.length := Nat.mul_comm _ _

/-- Samples with different `(lat, lon)` keys get different cell
indices. -/
theorem cellIdx_inj (lats lons : List ℚ) {p q : Sample}
    (hp1 : p.lat ∈ lats) (hp2 : p.lon ∈ lons)
    (hq1 : q.lat ∈ lats) (hq2 : q.lon ∈ lons)
    (hne : (p.lat, p.lon) ≠ (q.lat, q.lon)) :
    cellIdx lats lons lons.length p ≠ cellIdx lats lons lons.length q := by
  intro h
  unfold cellIdx at h
  have hx : lons.indexOf p.lon < lons.length := List.indexOf_lt_length.2 hp2
  have hx' : lons.indexOf q.lon < lons.length := List.indexOf_lt_length.2 hq2
  have hmod : lons.indexOf p.lon = lons.indexOf q.lon := by
    have h1 := congrArg (fun t => t % lons.length) h
    simpa [Nat.add_mul_mod_self_right, Nat.mod_eq_of_lt hx,
      Nat.mod_eq_of_lt hx'] using h1
  have hlon_eq : p.lon = q.lon := (List.indexOf_inj hp2 hq2).1 hmod
  have hmul : lats.indexOf p.lat * lons.length
      = lats.indexOf q.lat * lons.length := by omega
  have hw : 0 < lons.length := by omega
  have hlat_eq : p.lat = q.lat :=
    (List.indexOf_inj hp1 hq1).1 (Nat.eq_of_mul_eq_mul_right hw hmul)
  exact hne (by rw [hlat_eq, hlon_eq])

/-- One write preserves the length of the values array. -/
theorem writeCell_length (lats lons : List ℚ) (w : Nat)
    (vs : List (Option ℚ)) (p : Sample) :
    (writeCell lats lons w vs p).length = vs.length := by
  unfold writeCell
  split <;> simp

/-- The whole writing loop preserves the length of the values array. -/
theorem foldl_writeCell_length (lats lons : List ℚ) (w : Nat)
    (xs : List Sample) :
    ∀ vs : List (Option ℚ),
      (xs.foldl (writeCell lats lons w) vs).length = vs.length := by
  induction xs with
  | nil => intro vs; rfl
  | cons x xs ih =>
    intro vs
    rw [List.foldl_cons, ih, writeCell_length]

/-- Cells no remaining sample writes to keep their current content. -/
theorem foldl_writeCell_getD_of_ne (lats lons : List ℚ) (w : Nat)
    (xs : List Sample) :
    ∀ (vs : List (Option ℚ)) (i : Nat),
      (∀ q ∈ xs, cellIdx lats lons w q ≠ i) →
      (xs.foldl (writeCell lats lons w) vs).getD i none = vs.getD i none := by
  induction xs with
  | nil => intro vs i _; rfl
  | cons x xs ih =>
    intro vs i h
    rw [List.foldl_cons, ih _ _ (fun q hq => h q (List.mem_cons_of_mem _ hq))]
    unfold writeCell
    split
    · rw [List.getD_eq_getElem?_getD, List.getD_eq_getElem?_getD,
        List.getElem?_set_ne (h x (List.mem_cons_self _ _))]
    · rfl

/-- After the writing loop, the cell of each sample holds its value,
provided the samples have pairwise distinct `(lat, lon)` keys that all
occur on the axes. -/
theorem foldl_writeCell_getD (lats lons : List ℚ) (xs : List Sample) :
    ∀ vs : List (Option ℚ),
      xs.Pairwise (fun p q => (p.lat, p.lon) ≠ (q.lat, q.lon)) →
      (∀ q ∈ xs, q.lat ∈ lats ∧ q.lon ∈ lons) →
      vs.length = lons.length * lats.length →
      ∀ p ∈ xs,
        (xs.foldl (writeCell lats lons lons.length) vs).getD
          (cellIdx lats lons lons.length p) none = some p.wi := by
  induction xs with
  | nil => intro vs _ _ _ p hp; cases hp
  | cons x xs ih =>
    intro vs hkeys hmem hlen p hp
    rw [List.foldl_cons]
    rcases List.mem_cons.1 hp with rfl | hp'
    · have hx := hmem p (List.mem_cons_self _ _)
      have hne : ∀ q ∈ xs,
          cellIdx lats lons lons.length q ≠ cellIdx lats lons lons.length p := by
        intro q hq
        have hq' := hmem q (List.mem_cons_of_mem _ hq)
        exact cellIdx_inj lats lons hq'.1 hq'.2 hx.1 hx.2
          (Ne.symm ((List.pairwise_cons.1 hkeys).1 q hq))
      rw [foldl_writeCell_getD_of_ne _ _ _ xs _ _ hne]
      unfold writeCell
      rw [if_pos hx, List.getD_eq_getElem?_getD,
        List.getElem?_set_self (by rw [hlen]; exact cellIdx_lt lats lons p hx.1 hx.2)]
      rfl
    · exact ih (writeCell lats lons lons.length vs x)
        (List.pairwise_cons.1 hkeys).2
        (fun q hq => hmem q (List.mem_cons_of_mem _ hq))
        (by rw [writeCell_length, hlen]) p hp'

/-- **C3.**  For every non-empty SampleSet with no duplicate
`(lat, lon)` pairs, `buildRasterFromPoints` returns a raster whose
height is the number of distinct latitudes and width the number of
distinct longitudes; its axes are the ascending-sorted distinct axis
values, every sample's value sits at `values[x + y*width]` with `y`/`x`
the positions of its lat/lon on those axes, and no two samples write
the same cell. -/
theorem C3_raster_correct (points : List Sample) (hne : points ≠ [])
    (hnodup : points.Pairwise (fun p q => (p.lat, p.lon) ≠ (q.lat, q.lon))) :
    ∃ r : Raster, buildRasterFromPoints points = some r ∧
      r.lats = sortAxis (points.map Sample.lat) ∧
      r.lons = sortAxis (points.map Sample.lon) ∧
      r.height = (points.map Sample.lat).dedup.length ∧
      r.width = (points.map Sample.lon).dedup.length ∧
      (∀ p ∈ points,
        r.values.getD (r.lons.indexOf p.lon + r.lats.indexOf p.lat * r.width)
          none = some p.wi) ∧
      (∀ p ∈ points, ∀ q ∈ points, (p.lat, p.lon) ≠ (q.lat, q.lon) →
        r.lons.indexOf p.lon + r.lats.indexOf p.lat * r.width
          ≠ r.lons.indexOf q.lon + r.lats.indexOf q.lat * r.width) := by
  have hmem : ∀ q ∈ points,
      q.lat ∈ sortAxis (points.map Sample.lat) ∧
      q.lon ∈ sortAxis (points.map Sample.lon) := by
    intro q hq
    exact ⟨mem_sortAxis.2 (List.mem_map_of_mem _ hq),
      mem_sortAxis.2 (List.mem_map_of_mem _ hq)⟩
  rw [buildRasterFromPoints, if_neg (by simpa [List.isEmpty_iff] using hne)]
  refine ⟨_, rfl, rfl, rfl, sortAxis_length _, sortAxis_length _, ?_, ?_⟩
  · intro p hp
    exact foldl_writeCell_getD _ _ points _ hnodup hmem
      (by rw [List.length_replicate]) p hp
  · intro p hp q hq hpq
    have hp' := hmem p hp
    have hq' := hmem q hq
    exact cellIdx_inj _ _ hp'.1 hp'.2 hq'.1 hq'.2 hpq

/-- Witness for `C3_raster_correct` at a concrete 2-sample set. -/
theorem C3_raster_correct_witness :
    ∃ r : Raster, buildRasterFromPoints testSamples = some r ∧
      r.lats = sortAxis (testSamples.map Sample.lat) ∧
      r.lons = sortAxis (testSamples.map Sample.lon) ∧
      r.height = (testSamples.map Sample.lat).dedup.length ∧
      r.width = (testSamples.map Sample.lon).dedup.length ∧
      (∀ p ∈ testSamples,
        r.values.getD (r.lons.indexOf p.lon + r.lats.indexOf p.lat * r.width)
          none = some p.wi) ∧
      (∀ p ∈ testSamples, ∀ q ∈ testSamples, (p.lat, p.lon) ≠ (q.lat, q.lon) →
        r.lons.indexOf p.lon + r.lats.indexOf p.lat * r.width
          ≠ r.lons.indexOf q.lon + r.lats.indexOf q.lat * r.width) :=
  C3_raster_correct testSamples (by decide) (by decide)

/-! ## Degenerate inputs of the contour pipeline (C7) -/

/-- When the Rasterizer produces a raster, the pipeline is the
raster-stage contouring of it. -/
theorem contourPolylines_some (gen : Raster → List ℚ → List ContourFeature)
    (points : Option (List Sample)) (thresholds : List ℚ) (r : Raster)
    (hr : buildRasterFromPointsOpt points = some r) :
    contourPolylines gen points thresholds = contourFromRaster gen thresholds r := by
  unfold contourPolylines
  rw [hr]

/-- **C7.**  For every threshold list: an absent or empty SampleSet
makes the Rasterizer return "no raster" (`none`) and the contour
pipeline return an empty ring list, and a raster with `width < 2` or
`height < 2` likewise makes the pipeline return an empty ring list —
always the normal empty value of a total function, never an error. -/
theorem C7_degenerate_empty (gen : Raster → List ℚ → List ContourFeature)
    (thresholds : List ℚ) :
    buildRasterFromPointsOpt none = none ∧
    buildRasterFromPointsOpt (some []) = none ∧
    contourPolylines gen none thresholds = [] ∧
    contourPolylines gen (some []) thresholds = [] ∧
    (∀ (points : Option (List Sample)) (r : Raster),
      buildRasterFromPointsOpt points = some r →
      r.width < 2 ∨ r.height < 2 →
      contourPolylines gen points thresholds = []) := by
  refine ⟨rfl, rfl, rfl, rfl, ?_⟩
  intro points r hr hsmall
  rw [contourPolylines_some gen points thresholds r hr]
  exact if_pos hsmall

/-- Witness for `C7_degenerate_empty`: a 1-sample set builds a 1×1
raster, so the pipeline returns `[]` even under a generator that
reports a ring. -/
theorem C7_degenerate_empty_witness :
    contourPolylines genOne (some [oneSample]) [15] = [] :=
  (C7_degenerate_empty genOne [15]).2.2.2.2 (some [oneSample]) oneSampleRaster
    rfl (by decide)

/-! ## Bounding box of the pipeline output (C10) -/

/-- In-range defaulted indexing produces a member of the list. -/
theorem getD_mem_of_lt {α : Type} (l : List α) (i : Nat) (d : α)
    (h : i < l.length) : l.getD i d ∈ l := by
  rw [List.getD_eq_getElem?_getD, List.getElem?_eq_getElem h]
  exact List.getElem_mem h

/-- Defaulted indexing of a sorted list is monotone on in-range
indices. -/
theorem sorted_getD_le (l : List ℚ) (hs : l.Sorted (· ≤ ·)) (i j : Nat)
    (hij : i ≤ j) (hj : j < l.length) : l.getD i 0 ≤ l.getD j 0 := by
  have hi : i < l.length := lt_of_le_of_lt hij hj
  rw [List.getD_eq_getElem?_getD, List.getElem?_eq_getElem hi,
    List.getD_eq_getElem?_getD, List.getElem?_eq_getElem hj]
  simpa using
    hs.rel_get_of_le (show (⟨i, hi⟩ : Fin l.length) ≤ ⟨j, hj⟩ from hij)

/-- The clamped interpolation `yToLat` never leaves
`[lats[0], lats[height-1]]` when the axis is ascending. -/
theorem yToLat_bounds (height : Nat) (lats : List ℚ) (y : ℚ)
    (hs : lats.Sorted (· ≤ ·)) (hlen : lats.length = height)
    (hpos : 1 ≤ height) :
    lats.getD 0 0 ≤ yToLat height lats y ∧
    yToLat height lats y ≤ lats.getD (height - 1) 0 := by
  have hΔ : lats.getD 0 0 ≤ lats.getD (height - 1) 0 :=
    sorted_getD_le lats hs 0 (height - 1) (Nat.zero_le _) (by omega)
  by_cases h1 : height = 1
  · subst h1
    simp only [yToLat, if_pos rfl]
    constructor <;> simp
  · have hge2 : 2 ≤ height := by omega
    have h2 : (2 : ℚ) ≤ (height : ℚ) := by exact_mod_cast hge2
    have hden : (0 : ℚ) < (height : ℚ) - 1 := by linarith
    simp only [yToLat, if_neg h1]
    have hc0 : 0 ≤ max 0 (min ((height : ℚ) - 1) y) := le_max_left _ _
    have hc1 : max 0 (min ((height : ℚ) - 1) y) ≤ (height : ℚ) - 1 :=
      max_le (by linarith) (min_le_left _ _)
    have ht0 : 0 ≤ max 0 (min ((height : ℚ) - 1) y) / ((height : ℚ) - 1) :=
      div_nonneg hc0 hden.le
    have ht1 : max 0 (min ((height : ℚ) - 1) y) / ((height : ℚ) - 1) ≤ 1 :=
      (div_le_one hden).2 hc1
    constructor
    · nlinarith
    · nlinarith

/-- Longitude analogue of `yToLat_bounds`. -/
theorem xToLon_bounds (width : Nat) (lons : List ℚ) (x : ℚ)
    (hs : lons.Sorted (· ≤ ·)) (hlen : lons.length = width)
    (hpos : 1 ≤ width) :
    lons.getD 0 0 ≤ xToLon width lons x ∧
    xToLon width lons x ≤ lons.getD (width - 1) 0 := by
  have hΔ : lons.getD 0 0 ≤ lons.getD (width - 1) 0 :=
    sorted_getD_le lons hs 0 (width - 1) (Nat.zero_le _) (by omega)
  by_cases h1 : width = 1
  · subst h1
    simp only [xToLon, if_pos rfl]
    constructor <;> simp
  · have hge2 : 2 ≤ width := by omega
    have h2 : (2 : ℚ) ≤ (width : ℚ) := by exact_mod_cast hge2
    have hden : (0 : ℚ) < (width : ℚ) - 1 := by linarith
    simp only [xToLon, if_neg h1]
    have hc0 : 0 ≤ max 0 (min ((width : ℚ) - 1) x) := le_max_left _ _
    have hc1 : max 0 (min ((width : ℚ) - 1) x) ≤ (width : ℚ) - 1 :=
      max_le (by linarith) (min_le_left _ _)
    have ht0 : 0 ≤ max 0 (min ((width : ℚ) - 1) x) / ((width : ℚ) - 1) :=
      div_nonneg hc0 hden.le
    have ht1 : max 0 (min ((width : ℚ) - 1) x) / ((width : ℚ) - 1) ≤ 1 :=
      (div_le_one hden).2 hc1
    constructor
    · nlinarith
    · nlinarith

/-- Corner cuts are convex combinations: `Q` stays in any rectangle
containing its two generators. -/
theorem inRect_cutQ {lo1 hi1 lo2 hi2 : ℚ} {p q : Pt}
    (hp : inRect lo1 hi1 lo2 hi2 p) (hq : inRect lo1 hi1 lo2 hi2 q) :
    inRect lo1 hi1 lo2 hi2 (cutQ p q) := by
  obtain ⟨a1, a2, a3, a4⟩ := hp
  obtain ⟨b1, b2, b3, b4⟩ := hq
  exact ⟨by simp only [cutQ]; linarith, by simp only [cutQ]; linarith,
    by simp only [cutQ]; linarith, by simp only [cutQ]; linarith⟩

/-- Corner cuts are convex combinations: `R` stays in any rectangle
containing its two generators. -/
theorem inRect_cutR {lo1 hi1 lo2 hi2 : ℚ} {p q : Pt}
    (hp : inRect lo1 hi1 lo2 hi2 p) (hq : inRect lo1 hi1 lo2 hi2 q) :
    inRect lo1 hi1 lo2 hi2 (cutR p q) := by
  obtain ⟨a1, a2, a3, a4⟩ := hp
  obtain ⟨b1, b2, b3, b4⟩ := hq
  exact ⟨by simp only [cutR]; linarith, by simp only [cutR]; linarith,
    by simp only [cutR]; linarith, by simp only [cutR]; linarith⟩

/-- Every point the inner loop pushes is a corner cut of two in-range
input points. -/
theorem chaikinMid_mem (c : Bool) (pts : List Pt) (p : Pt)
    (hp : p ∈ chaikinMid c pts) :
    ∃ i, i + 1 < pts.length ∧
      (p = cutQ (pts.getD i dPt) (pts.getD (i+1) dPt) ∨
       p = cutR (pts.getD i dPt) (pts.getD (i+1) dPt)) := by
  simp only [chaikinMid] at hp
  rw [List.mem_flatMap] at hp
  obtain ⟨i, hi, hpmem⟩ := hp
  rw [List.mem_range'] at hi
  obtain ⟨k, hk, rfl⟩ := hi
  simp only [List.mem_cons, List.mem_singleton, List.not_mem_nil, or_false]
    at hpmem
  refine ⟨_, ?_, hpmem⟩
  rcases c with _ | _ <;> simp at hk ⊢ <;> omega

/-- The `next` list of one iteration stays inside any rectangle
containing the input points (input of length ≥ 1 so that the endpoint
pushes re-use actual input points). -/
theorem chaikinNext_inRect {lo1 hi1 lo2 hi2 : ℚ} (c : Bool) (pts : List Pt)
    (h1 : 1 ≤ pts.length) (h : ∀ p ∈ pts, inRect lo1 hi1 lo2 hi2 p) :
    ∀ p ∈ chaikinNext c pts, inRect lo1 hi1 lo2 hi2 p := by
  intro p hp
  unfold chaikinNext at hp
  rw [List.mem_append, List.mem_append] at hp
  have hmid : p ∈ chaikinMid c pts → inRect lo1 hi1 lo2 hi2 p := by
    intro hm
    obtain ⟨i, hi, hcut⟩ := chaikinMid_mem c pts p hm
    have hpi := h _ (getD_mem_of_lt pts i dPt (by omega))
    have hpi1 := h _ (getD_mem_of_lt pts (i+1) dPt hi)
    rcases hcut with rfl | rfl
    · exact inRect_cutQ hpi hpi1
    · exact inRect_cutR hpi hpi1
  rcases hp with (hp | hp) | hp
  · rcases c with _ | _
    · simp at hp
      subst hp
      rw [← List.getD_eq_getElem?_getD]
      exact h _ (getD_mem_of_lt pts 0 dPt (by omega))
    · simp at hp
  · exact hmid hp
  · rcases c with _ | _
    · simp at hp
      subst hp
      rw [← List.getD_eq_getElem?_getD]
      exact h _ (getD_mem_of_lt pts (pts.length - 1) dPt (by omega))
    · simp at hp

/-- The closed-curve inner loop produces `2*(n-1)` points. -/
theorem chaikinNext_true_length (pts : List Pt) :
    (chaikinNext true pts).length = 2 * (pts.length - 1) := by
  simp only [chaikinNext, chaikinMid]
  simp [List.length_flatMap, Function.comp_def, List.map_const', List.sum_replicate,
    smul_eq_mul]
  omega

/-- The re-closing fix-up only re-uses points of its input, so it
preserves any rectangle containing a nonempty input. -/
theorem reclose_inRect {lo1 hi1 lo2 hi2 : ℚ} (l : List Pt) (hne : l ≠ [])
    (h : ∀ p ∈ l, inRect lo1 hi1 lo2 hi2 p) :
    ∀ p ∈ reclose l, inRect lo1 hi1 lo2 hi2 p := by
  intro p hp
  unfold reclose at hp
  split at hp
  · rw [List.mem_append, List.mem_singleton] at hp
    rcases hp with hp | rfl
    · exact h p hp
    · exact h _ (getD_mem_of_lt l 0 dPt (List.length_pos.2 hne))
  · exact h p hp

/-- One full Chaikin iteration preserves any rectangle containing the
(≥ 2 point) input. -/
theorem chaikinIter_inRect {lo1 hi1 lo2 hi2 : ℚ} (c : Bool) (pts : List Pt)
    (h2 : 2 ≤ pts.length) (h : ∀ p ∈ pts, inRect lo1 hi1 lo2 hi2 p) :
    ∀ p ∈ chaikinIter c pts, inRect lo1 hi1 lo2 hi2 p := by
  rcases c with _ | _
  · rw [chaikinIter, if_neg Bool.false_ne_true]
    exact chaikinNext_inRect false pts (by omega) h
  · rw [chaikinIter, if_pos rfl]
    have hne : chaikinNext true pts ≠ [] := by
      intro hcon
      have := chaikinNext_true_length pts
      rw [hcon] at this
      simp at this
      omega
    exact reclose_inRect _ hne (chaikinNext_inRect true pts (by omega) h)

/-- One full Chaikin iteration keeps the point count at 2 or more. -/
theorem chaikinIter_length_two (c : Bool) (pts : List Pt)
    (h2 : 2 ≤ pts.length) : 2 ≤ (chaikinIter c pts).length := by
  rcases c with _ | _
  · rw [chaikinIter, if_neg Bool.false_ne_true]
    have := chaikinIter_false_length pts
    rw [chaikinIter, if_neg Bool.false_ne_true] at this
    omega
  · rw [chaikinIter, if_pos rfl]
    have hlen := chaikinNext_true_length pts
    have : (chaikinNext true pts).length ≤ (reclose (chaikinNext true pts)).length := by
      unfold reclose
      split <;> simp
    omega

/-- The whole iteration loop preserves any rectangle containing the
(≥ 2 point) input. -/
theorem chaikinGo_inRect {lo1 hi1 lo2 hi2 : ℚ} (c : Bool) :
    ∀ (k : Nat) (pts : List Pt), 2 ≤ pts.length →
      (∀ p ∈ pts, inRect lo1 hi1 lo2 hi2 p) →
      ∀ p ∈ chaikinGo c k pts, inRect lo1 hi1 lo2 hi2 p := by
  intro k
  induction k with
  | zero => intro pts _ h p hp; exact h p hp
  | succ j ih =>
    intro pts h2 h p hp
    simp only [chaikinGo] at hp
    split at hp
    · exact chaikinIter_inRect c pts h2 h p hp
    · exact ih (chaikinIter c pts) (chaikinIter_length_two c pts h2)
        (chaikinIter_inRect c pts h2 h) p hp

/-- `chaikinSmooth` preserves any rectangle containing its input: each
output point is an iterated convex combination of input points. -/
theorem chaikinSmooth_inRect {lo1 hi1 lo2 hi2 : ℚ} (pts : List Pt) (k : Nat)
    (h : ∀ p ∈ pts, inRect lo1 hi1 lo2 hi2 p) :
    ∀ p ∈ chaikinSmooth pts k, inRect lo1 hi1 lo2 hi2 p := by
  intro p hp
  rw [chaikinSmooth] at hp
  split at hp
  · exact h p hp
  · exact chaikinGo_inRect _ k pts (by omega) h p hp

/-- The axes of any raster the Rasterizer returns are the
ascending-sorted distinct axis values, with `height`/`width` their
lengths. -/
theorem buildRaster_fields (points : List Sample) (r : Raster)
    (h : buildRasterFromPoints points = some r) :
    r.lats = sortAxis (points.map Sample.lat) ∧
    r.lons = sortAxis (points.map Sample.lon) ∧
    r.height = r.lats.length ∧ r.width = r.lons.length := by
  rw [buildRasterFromPoints] at h
  split at h
  · exact Option.noConfusion h
  · cases h
    exact ⟨rfl, rfl, rfl, rfl⟩

/-- **C10.**  Every vertex of every polyline the contour pipeline
emits lies within the geographic bounding box
`[lats[0], lats[height-1]] × [lons[0], lons[width-1]]` of the raster it
was built on: the raster's axes are ascending by construction, the
reprojection clamps grid indices before interpolating, and Chaikin
smoothing only forms convex combinations of existing points. -/
theorem C10_bounding_box (gen : Raster → List ℚ → List ContourFeature)
    (points : Option (List Sample)) (thresholds : List ℚ) (r : Raster)
    (hr : buildRasterFromPointsOpt points = some r) :
    ∀ pl ∈ contourPolylines gen points thresholds, ∀ v ∈ pl.latlngs,
      inRect (r.lats.getD 0 0) (r.lats.getD (r.height - 1) 0)
        (r.lons.getD 0 0) (r.lons.getD (r.width - 1) 0) v := by
  intro pl hpl v hv
  obtain ⟨ps, rfl⟩ : ∃ ps, points = some ps := by
    cases points with
    | none => exact Option.noConfusion hr
    | some ps => exact ⟨ps, rfl⟩
  have hfields := buildRaster_fields ps r hr
  rw [contourPolylines_some gen (some ps) thresholds r hr] at hpl
  unfold contourFromRaster at hpl
  split at hpl
  · cases hpl
  case _ hlarge =>
    have hw2 : 2 ≤ r.width := by omega
    have hh2 : 2 ≤ r.height := by omega
    rw [List.mem_flatMap] at hpl
    obtain ⟨c, _, hpl⟩ := hpl
    rw [List.mem_filterMap] at hpl
    obtain ⟨ring, _, hopt⟩ := hpl
    dsimp only at hopt
    split at hopt
    · exact Option.noConfusion hopt
    split at hopt
    case _ =>
      injection hopt with hopt'
      subst hopt'
      have hbase : ∀ p ∈ ring.filterMap
          (nodeToLatLng r.height r.width r.lats r.lons),
          inRect (r.lats.getD 0 0) (r.lats.getD (r.height - 1) 0)
            (r.lons.getD 0 0) (r.lons.getD (r.width - 1) 0) p := by
        intro p hp
        rw [List.mem_filterMap] at hp
        obtain ⟨node, _, hnode⟩ := hp
        cases node with
        | group children => exact Option.noConfusion hnode
        | leaf x y =>
          injection hnode with hnode'
          subst hnode'
          have hlat := yToLat_bounds r.height r.lats y
            (hfields.1 ▸ sortAxis_sorted _) (hfields.2.2.1.symm)
            (by omega)
          have hlon := xToLon_bounds r.width r.lons x
            (hfields.2.1 ▸ sortAxis_sorted _) (hfields.2.2.2.symm)
            (by omega)
          exact ⟨hlat.1, hlat.2, hlon.1, hlon.2⟩
      exact chaikinSmooth_inRect _ 4 hbase v hv
    case _ => exact Option.noConfusion hopt

/-- On the concrete 2×2 grid, the pipeline under the diagonal stand-in
generator emits exactly one polyline, the two reprojected endpoints of
the 2-leaf ring (a 2-point list, on which `chaikinSmooth` is the
identity). -/
theorem contourPolylines_grid_eval :
    contourPolylines genDiag (some gridSamples) [45]
      = [⟨[(yToLat 2 [35, 36] 0, xToLon 2 [139, 140] 0),
           (yToLat 2 [35, 36] (-3), xToLon 2 [139, 140] 5)], 45⟩] := by
  have hflat : flattenRings (CoordNode.group [.leaf 0 0, .leaf 5 (-3)])
      = [[CoordNode.leaf 0 0, CoordNode.leaf 5 (-3)]] := by
    simp [flattenRings, flattenWalk, headIsLeaf]
  rw [contourPolylines_some genDiag (some gridSamples) [45] gridRaster rfl]
  unfold contourFromRaster
  rw [if_neg (by decide)]
  simp only [genDiag, gridRaster, List.map_cons, List.map_nil, List.flatMap_cons,
    List.flatMap_nil, List.append_nil, hflat, List.filterMap_cons, List.filterMap_nil,
    nodeToLatLng]
  norm_num [chaikinSmooth]

/-- Witness for `C10_bounding_box` at the concrete 2×2 grid and the
diagonal stand-in generator: the pipeline emits exactly one polyline
(the 3-leaf open ring collapses to its two reprojected endpoints), and
its first vertex lies in the raster's bounding box. -/
theorem C10_bounding_box_witness :
    inRect (gridRaster.lats.getD 0 0)
      (gridRaster.lats.getD (gridRaster.height - 1) 0)
      (gridRaster.lons.getD 0 0)
      (gridRaster.lons.getD (gridRaster.width - 1) 0)
      (yToLat 2 [35, 36] 0, xToLon 2 [139, 140] 0) :=
  C10_bounding_box genDiag (some gridSamples) [45] gridRaster rfl
    ⟨[(yToLat 2 [35, 36] 0, xToLon 2 [139, 140] 0),
      (yToLat 2 [35, 36] (-3), xToLon 2 [139, 140] 5)], 45⟩
    (by rw [contourPolylines_grid_eval]; exact List.mem_singleton.mpr rfl)
    (yToLat 2 [35, 36] 0, xToLon 2 [139, 140] 0)
    (List.mem_cons_self _ _)

end ClimateMap
